import Mathlib

/-!
Verification development for the Jarvis Core service
(`jarvis_core/models.py`, `jarvis_core/llm.py`, `jarvis_core/JarvisCore.py`).

The Python code is shallowly embedded: each relevant Python function becomes a
pure Lean function over explicit state.  External effects (the remote hub, the
filesystem, the JSON decoder of the standard library) are passed in as explicit
parameters or oracles so that the control flow of the embedded functions is
exactly that of the source.
-/

namespace JarvisCore

/-! ## Registry data model (`models.py`) -/

/-- Lifecycle states of `ModelState` in `models.py`. -/
inductive ModelState where
  | NOT_INSTALLED
  | DOWNLOADING
  | READY
  | ACTIVE
deriving DecidableEq, Repr

/-- The `ModelMetadata` dataclass of `models.py`. -/
structure ModelMetadata where
  model_id : String
  repo_id : Option String := none
  filename : Option String := none
  checksum : Option String := none
  tags : List String := []
  state : ModelState := ModelState.NOT_INSTALLED
  local_path : Option String := none
  active_path : Option String := none
deriving DecidableEq, Repr

/-- The registry state relevant to metadata operations: the ordered
`_models` dict (modelled as an insertion-ordered list with unique ids)
and the set of ids with a tracked `_tasks` entry. -/
structure RegState where
  models : List ModelMetadata := []
  tasks : List String := []
deriving DecidableEq, Repr

/-- `self._models.get(model_id)`. -/
def getModel (s : RegState) (id : String) : Option ModelMetadata :=
  s.models.find? (fun m => m.model_id == id)

/-- `self._models[model_id] = metadata`: replace in place when the key is
present (Python dicts keep insertion order), append otherwise. -/
def setModel (models : List ModelMetadata) (id : String) (m : ModelMetadata) :
    List ModelMetadata :=
  if models.any (fun e => e.model_id == id) then
    models.map (fun e => if e.model_id == id then m else e)
  else
    models ++ [m]

/-- Typed errors raised by `ModelRegistry` operations. -/
inductive RegError where
  | conflict (msg : String)
  | notFound (msg : String)
deriving DecidableEq, Repr

/-- Destination path `<storage>/<model_id>/<filename>` allocated by
`start_download`. -/
def storagePath (model_id filename : String) : String :=
  "models/" ++ model_id ++ "/" ++ filename

/-- Registry mutation performed by `ModelRegistry.start_download`
(`models.py` lines 161-204) once the remote probe has succeeded.  The checks
and field updates follow the source line by line; the spawned worker task is
recorded in `tasks`. -/
def startDownload (s : RegState) (model_id repo_id filename : String)
    (checksum : Option String) (tags : List String) : Except RegError RegState :=
  if s.tasks.contains model_id then
    Except.error (RegError.conflict "A download is already in progress for this model")
  else
    let metadata := (getModel s model_id).getD { model_id := model_id }
    if metadata.state = ModelState.DOWNLOADING then
      Except.error (RegError.conflict "Model is already downloading")
    else
      let metadata := { metadata with
        repo_id := some repo_id
        filename := some filename
        tags := tags
        checksum := checksum
        state := ModelState.DOWNLOADING
        active_path := none
        local_path := some (storagePath model_id filename) }
      Except.ok { models := setModel s.models model_id metadata,
                  tasks := s.tasks ++ [model_id] }

/-- Per-entry effect of the loop and final assignment in
`ModelRegistry.activate_model`: every other ACTIVE entry is demoted to READY
with its `active_path` cleared, and the target is set ACTIVE with
`active_path = local_path`. -/
def activationUpdate (model_id : String) (e : ModelMetadata) : ModelMetadata :=
  if e.model_id == model_id then
    { e with state := ModelState.ACTIVE, active_path := e.local_path }
  else if e.state = ModelState.ACTIVE then
    { e with state := ModelState.READY, active_path := none }
  else e

/-- `ModelRegistry.activate_model` (`models.py` lines 206-227).
`pathExists` is the filesystem oracle for `Path(...).exists()`; an empty
`local_path` string is falsy in Python and rejected like a missing one. -/
def activateModel (s : RegState) (model_id : String) (pathExists : String → Bool) :
    Except RegError RegState :=
  match getModel s model_id with
  | none => Except.error (RegError.notFound "Model is not registered")
  | some metadata =>
    if metadata.state ≠ ModelState.READY ∧ metadata.state ≠ ModelState.ACTIVE then
      Except.error (RegError.conflict "Model is not ready to be activated")
    else
      match metadata.local_path with
      | none => Except.error (RegError.conflict "Local model files are missing")
      | some p =>
        if p = "" ∨ ¬ pathExists p then
          Except.error (RegError.conflict "Local model files are missing")
        else
          Except.ok { s with models := s.models.map (activationUpdate model_id) }

/-- The state mutation of `ModelRegistry.remove_model` (`models.py`
lines 229-258): the entry, its progress record and its task are popped
(this happens even when the id is unknown and the call then raises). -/
def removeModel (s : RegState) (model_id : String) : RegState :=
  { models := s.models.filter (fun e => e.model_id ≠ model_id),
    tasks := s.tasks.filter (fun t => t ≠ model_id) }

/-- Registry mutation of the success branch of
`ModelRegistry._download_and_finalize` (`models.py` lines 353-362) together
with the `finally` clause popping the task.  `capturedLocalPath` is
`metadata.local_path` of the metadata object captured at spawn time. -/
def finalizeSuccess (s : RegState) (model_id digest : String)
    (capturedLocalPath : Option String) : RegState :=
  match getModel s model_id with
  | none => { s with tasks := s.tasks.filter (fun t => t ≠ model_id) }
  | some stored =>
    let stored := { stored with
      state := if stored.state = ModelState.ACTIVE then ModelState.ACTIVE
               else ModelState.READY
      checksum := some digest
      local_path := capturedLocalPath }
    { models := setModel s.models model_id stored,
      tasks := s.tasks.filter (fun t => t ≠ model_id) }

/-- Metadata reset of `ModelRegistry._mark_download_failed` (`models.py`
lines 412-428), restricted to the registry fields. -/
def markDownloadFailedReg (s : RegState) (model_id : String) : RegState :=
  match getModel s model_id with
  | none => s
  | some m =>
    let m := { m with state := ModelState.NOT_INSTALLED,
                      active_path := none, local_path := none }
    { s with models := setModel s.models model_id m }

/-- Failure branch of `_download_and_finalize`: mark failed, then the
`finally` clause pops the task. -/
def finalizeFailure (s : RegState) (model_id : String) : RegState :=
  let s := markDownloadFailedReg s model_id
  { s with tasks := s.tasks.filter (fun t => t ≠ model_id) }

/-- One registry operation, with external outcomes (filesystem checks,
computed digests) supplied as data. -/
inductive RegOp where
  | startDownload (model_id repo_id filename : String)
      (checksum : Option String) (tags : List String)
  | activate (model_id : String) (pathExists : String → Bool)
  | remove (model_id : String)
  | finalizeOk (model_id digest : String) (capturedLocalPath : Option String)
  | finalizeFail (model_id : String)

/-- Apply one operation; an operation that raises leaves the registry
unchanged (all checks in the source precede the first mutation, except in
`remove_model` whose pops are unconditional). -/
def stepOp (s : RegState) (op : RegOp) : RegState :=
  match op with
  | RegOp.startDownload id r f c t => ((startDownload s id r f c t).toOption).getD s
  | RegOp.activate id pe => ((activateModel s id pe).toOption).getD s
  | RegOp.remove id => removeModel s id
  | RegOp.finalizeOk id d lp => finalizeSuccess s id d lp
  | RegOp.finalizeFail id => finalizeFailure s id

/-- Run a sequence of operations from the initial (empty) registry. -/
def runOps (ops : List RegOp) : RegState :=
  ops.foldl stepOp {}

/-- Number of catalogue entries in state ACTIVE. -/
def countActive (s : RegState) : Nat :=
  s.models.countP (fun e => e.state == ModelState.ACTIVE)

/-- Ids of the catalogue entries, in insertion order. -/
def modelIds (s : RegState) : List String :=
  s.models.map (fun e => e.model_id)

/-- Registry invariant: unique ids (a Python dict cannot hold duplicates)
and at most one ACTIVE entry. -/
def RegInv (s : RegState) : Prop :=
  (modelIds s).Nodup ∧ countActive s ≤ 1

/-! ### Invariant lemmas for the registry state machine -/

/-- The predicate counted by `countActive`. -/
def isActiveB (e : ModelMetadata) : Bool := e.state == ModelState.ACTIVE

theorem countActive_eq (s : RegState) : countActive s = s.models.countP isActiveB := rfl

theorem getModel_model_id {s : RegState} {id : String} {m : ModelMetadata}
    (h : getModel s id = some m) : m.model_id = id := by
  have := List.find?_some h
  simpa using this

theorem getModel_mem {s : RegState} {id : String} {m : ModelMetadata}
    (h : getModel s id = some m) : m ∈ s.models :=
  List.mem_of_find?_eq_some h

theorem find?_id_eq_of_nodup {models : List ModelMetadata}
    (hnd : (models.map (fun e => e.model_id)).Nodup)
    {x : ModelMetadata} (hx : x ∈ models) :
    models.find? (fun m => m.model_id == x.model_id) = some x := by
  induction models with
  | nil => cases hx
  | cons y t ih =>
    rw [List.map_cons, List.nodup_cons] at hnd
    rcases List.mem_cons.mp hx with rfl | hxt
    · simp [List.find?]
    · have hy : y.model_id ≠ x.model_id := fun he =>
        hnd.1 (he ▸ List.mem_map_of_mem (fun e => e.model_id) hxt)
      rw [List.find?_cons_of_neg _ (by simpa using hy)]
      exact ih hnd.2 hxt

/-- In a registry with unique ids, an entry whose id is looked up is the
unique entry returned by `getModel`. -/
theorem getModel_eq_of_nodup {s : RegState} (hnd : (modelIds s).Nodup)
    {x : ModelMetadata} (hx : x ∈ s.models) :
    getModel s x.model_id = some x :=
  find?_id_eq_of_nodup hnd hx

theorem countP_map_le_of (p : ModelMetadata → Bool) (f : ModelMetadata → ModelMetadata)
    (l : List ModelMetadata) (h : ∀ x ∈ l, p (f x) = true → p x = true) :
    (l.map f).countP p ≤ l.countP p := by
  rw [List.countP_map]
  exact List.countP_mono_left h

/-- Replacing (or inserting) an entry that is not ACTIVE cannot increase the
number of ACTIVE entries. -/
theorem countP_setModel_le_of_inactive (models : List ModelMetadata) (id : String)
    (m : ModelMetadata) (hm : isActiveB m = false) :
    (setModel models id m).countP isActiveB ≤ models.countP isActiveB := by
  unfold setModel
  split
  · apply countP_map_le_of
    intro x hx hpx
    by_cases hid : (x.model_id == id) = true
    · rw [if_pos hid] at hpx
      rw [hpx] at hm
      cases hm
    · rwa [if_neg (by simpa using hid)] at hpx
  · rw [List.countP_append]
    simp [List.countP_cons, hm]

/-- Replacing the entry found by `getModel` by one that is ACTIVE only if the
found entry already was cannot increase the number of ACTIVE entries
(registry ids are unique). -/
theorem countP_setModel_le_of_found {s : RegState} {id : String}
    {stored m : ModelMetadata} (hnd : (modelIds s).Nodup)
    (hfind : getModel s id = some stored)
    (hm : isActiveB m = true → isActiveB stored = true) :
    (setModel s.models id m).countP isActiveB ≤ s.models.countP isActiveB := by
  unfold setModel
  split
  · apply countP_map_le_of
    intro x hx hpx
    by_cases hid : (x.model_id == id) = true
    · have hxid : x.model_id = id := by simpa using hid
      have hxeq : x = stored := by
        have h1 : getModel s x.model_id = some x := getModel_eq_of_nodup hnd hx
        rw [hxid, hfind] at h1
        exact (Option.some.injEq _ _ ▸ h1).symm
      rw [if_pos hid] at hpx
      rw [hxeq]
      exact hm hpx
    · rwa [if_neg (by simpa using hid)] at hpx
  · rename_i hany
    exfalso
    apply hany
    have hmem := getModel_mem hfind
    have hidm := getModel_model_id hfind
    exact List.any_eq_true.mpr ⟨stored, hmem, by simp [hidm]⟩

/-- `setModel` with an entry carrying the looked-up id leaves the id list
unchanged when the id is present, and appends the id otherwise; either way
uniqueness of ids is preserved. -/
theorem nodup_setModel (models : List ModelMetadata) (id : String)
    (m : ModelMetadata) (hm : m.model_id = id)
    (hnd : (models.map (fun e => e.model_id)).Nodup) :
    ((setModel models id m).map (fun e => e.model_id)).Nodup := by
  unfold setModel
  split
  · have : (models.map fun e =>
        (if e.model_id == id then m else e).model_id) = models.map (fun e => e.model_id) := by
      apply List.map_congr_left
      intro x _
      by_cases hid : (x.model_id == id) = true
      · rw [if_pos hid, hm]
        exact (by simpa using hid : x.model_id = id).symm
      · rw [if_neg (by simpa using hid)]
    rw [List.map_map]
    rw [Function.comp_def]
    rw [this]
    exact hnd
  · rename_i hany
    rw [List.map_append, List.map_singleton, hm]
    rw [List.nodup_append]
    refine ⟨hnd, List.nodup_singleton id, ?_⟩
    intro a ha hb
    rcases List.mem_singleton.mp hb with rfl
    rcases List.mem_map.mp ha with ⟨e, he, hei⟩
    exact hany (List.any_eq_true.mpr ⟨e, he, by simp [hei]⟩)

theorem getD_model_id (s : RegState) (id : String) :
    ((getModel s id).getD { model_id := id } : ModelMetadata).model_id = id := by
  cases hg : getModel s id
  · rfl
  · exact getModel_model_id hg

theorem startDownload_ok {s s' : RegState} {id r f : String} {c : Option String}
    {t : List String} (hok : startDownload s id r f c t = Except.ok s') :
    s' = { models := setModel s.models id
             { (getModel s id).getD { model_id := id } with
               repo_id := some r, filename := some f, tags := t, checksum := c,
               state := ModelState.DOWNLOADING, active_path := none,
               local_path := some (storagePath id f) },
           tasks := s.tasks ++ [id] } := by
  unfold startDownload at hok
  split at hok
  · cases hok
  · dsimp only at hok
    split at hok
    · cases hok
    · cases hok
      rfl

theorem activateModel_ok {s s' : RegState} {id : String} {pe : String → Bool}
    (hok : activateModel s id pe = Except.ok s') :
    s'.models = s.models.map (activationUpdate id) ∧ s'.tasks = s.tasks := by
  unfold activateModel at hok
  split at hok
  · cases hok
  · split at hok
    · cases hok
    · split at hok
      · cases hok
      · split at hok
        · cases hok
        · cases hok
          exact ⟨rfl, rfl⟩

theorem regInv_startDownload {s s' : RegState} {id r f : String} {c : Option String}
    {t : List String} (h : RegInv s) (hok : startDownload s id r f c t = Except.ok s') :
    RegInv s' := by
  rw [startDownload_ok hok]
  constructor
  · exact nodup_setModel _ _ _ (getD_model_id s id) h.1
  · calc (setModel s.models id _).countP isActiveB
        ≤ s.models.countP isActiveB :=
          countP_setModel_le_of_inactive _ _ _ (by simp [isActiveB])
      _ ≤ 1 := h.2

theorem regInv_activate {s s' : RegState} {id : String} {pe : String → Bool}
    (h : RegInv s) (hok : activateModel s id pe = Except.ok s') : RegInv s' := by
  obtain ⟨hm, _⟩ := activateModel_ok hok
  constructor
  · show (s'.models.map (fun e => e.model_id)).Nodup
    rw [hm, List.map_map]
    have : ((fun e => e.model_id) ∘ activationUpdate id) = fun e : ModelMetadata => e.model_id := by
      funext e
      simp only [Function.comp_apply, activationUpdate]
      by_cases h1 : (e.model_id == id) = true
      · rw [if_pos h1]
      · rw [if_neg h1]
        by_cases h2 : e.state = ModelState.ACTIVE
        · rw [if_pos h2]
        · rw [if_neg h2]
    rw [this]
    exact h.1
  · show s'.models.countP isActiveB ≤ 1
    rw [hm, List.countP_map]
    have hcong : s.models.countP (isActiveB ∘ activationUpdate id)
        = s.models.countP (fun e => e.model_id == id) := by
      apply List.countP_congr
      intro e _
      simp only [Function.comp_apply, activationUpdate]
      by_cases h1 : (e.model_id == id) = true
      · rw [if_pos h1, h1]
        simp [isActiveB]
      · rw [if_neg h1]
        by_cases h2 : e.state = ModelState.ACTIVE
        · rw [if_pos h2]
          simp [isActiveB, h1]
        · rw [if_neg h2]
          simpa [isActiveB, h1] using h2
    rw [hcong]
    have : s.models.countP (fun e => e.model_id == id)
        = (s.models.map (fun e => e.model_id)).countP (fun y => y == id) := by
      rw [List.countP_map]
      rfl
    rw [this]
    exact (List.nodup_iff_count_le_one.mp h.1 id)

theorem regInv_remove {s : RegState} (h : RegInv s) (id : String) :
    RegInv (removeModel s id) := by
  constructor
  · show (((s.models.filter (fun e => e.model_id ≠ id))).map (fun e => e.model_id)).Nodup
    exact ((List.filter_sublist s.models).map (fun e => e.model_id)).nodup
      (show (s.models.map (fun e => e.model_id)).Nodup from h.1)
  · show ((s.models.filter (fun e => e.model_id ≠ id))).countP isActiveB ≤ 1
    exact le_trans ((List.filter_sublist s.models).countP_le isActiveB) h.2

theorem regInv_finalizeSuccess {s : RegState} (h : RegInv s) (id d : String)
    (lp : Option String) : RegInv (finalizeSuccess s id d lp) := by
  unfold finalizeSuccess
  cases hg : getModel s id with
  | none => exact ⟨h.1, h.2⟩
  | some stored =>
    constructor
    · exact nodup_setModel _ _ _ (by simpa using getModel_model_id hg) h.1
    · refine le_trans (countP_setModel_le_of_found h.1 hg ?_) h.2
      intro hact
      simp only [isActiveB] at hact ⊢
      by_cases hs : stored.state = ModelState.ACTIVE
      · simp [hs]
      · simp [hs] at hact

theorem regInv_finalizeFailure {s : RegState} (h : RegInv s) (id : String) :
    RegInv (finalizeFailure s id) := by
  unfold finalizeFailure markDownloadFailedReg
  cases hg : getModel s id with
  | none => exact ⟨h.1, h.2⟩
  | some m =>
    constructor
    · exact nodup_setModel _ _ _ (by simpa using getModel_model_id hg) h.1
    · refine le_trans (countP_setModel_le_of_inactive _ _ _ ?_) h.2
      simp [isActiveB]

theorem regInv_stepOp (s : RegState) (op : RegOp) (h : RegInv s) :
    RegInv (stepOp s op) := by
  cases op with
  | startDownload id r f c t =>
    cases hres : startDownload s id r f c t with
    | ok s' =>
      have : stepOp s (RegOp.startDownload id r f c t) = s' := by
        simp [stepOp, hres, Except.toOption]
      rw [this]
      exact regInv_startDownload h hres
    | error e =>
      have : stepOp s (RegOp.startDownload id r f c t) = s := by
        simp [stepOp, hres, Except.toOption]
      rw [this]
      exact h
  | activate id pe =>
    cases hres : activateModel s id pe with
    | ok s' =>
      have : stepOp s (RegOp.activate id pe) = s' := by
        simp [stepOp, hres, Except.toOption]
      rw [this]
      exact regInv_activate h hres
    | error e =>
      have : stepOp s (RegOp.activate id pe) = s := by
        simp [stepOp, hres, Except.toOption]
      rw [this]
      exact h
  | remove id => exact regInv_remove h id
  | finalizeOk id d lp => exact regInv_finalizeSuccess h id d lp
  | finalizeFail id => exact regInv_finalizeFailure h id

theorem regInv_runOps (ops : List RegOp) : RegInv (runOps ops) := by
  have hinit : RegInv ({} : RegState) := ⟨List.nodup_nil, Nat.zero_le 1⟩
  unfold runOps
  generalize ({} : RegState) = s0 at hinit ⊢
  induction ops generalizing s0 with
  | nil => exact hinit
  | cons op rest ih =>
    rw [List.foldl_cons]
    exact ih _ (regInv_stepOp s0 op hinit)

/-- Membership in `setModel`: an element of the updated dict is either the
written value or an untouched entry whose key differs. -/
theorem mem_setModel {models : List ModelMetadata} {id : String}
    {m e' : ModelMetadata} (h : e' ∈ setModel models id m) :
    e' = m ∨ (e' ∈ models ∧ (e'.model_id == id) = false) := by
  unfold setModel at h
  split at h
  · rcases List.mem_map.mp h with ⟨x, hx, rfl⟩
    by_cases h1 : (x.model_id == id) = true
    · left
      rw [if_pos h1]
    · right
      rw [if_neg h1]
      exact ⟨hx, by simpa using h1⟩
  · rename_i hany
    rcases List.mem_append.mp h with hx | hx
    · right
      refine ⟨hx, ?_⟩
      cases hb : (e'.model_id == id) with
      | false => rfl
      | true => exact absurd (List.any_eq_true.mpr ⟨e', hx, hb⟩) hany
    · left
      simpa using hx

/-- C1: for every sequence of registry operations from the empty catalogue
(start_download, activate_model, remove_model, download finalisation on
success or failure), at most one metadata entry is ACTIVE; and a successful
`activate_model(m)` demotes every other ACTIVE entry to READY with its
`active_path` cleared, leaving no entry other than `m` ACTIVE. -/
theorem single_active_model_invariant :
    (∀ ops : List RegOp, countActive (runOps ops) ≤ 1) ∧
    (∀ (s : RegState) (id : String) (pe : String → Bool) (s' : RegState),
      activateModel s id pe = Except.ok s' →
      (∀ e ∈ s.models, e.model_id ≠ id → e.state = ModelState.ACTIVE →
        { e with state := ModelState.READY, active_path := none } ∈ s'.models) ∧
      (∀ e' ∈ s'.models, e'.model_id ≠ id → e'.state ≠ ModelState.ACTIVE)) := by
  constructor
  · intro ops
    exact (regInv_runOps ops).2
  · intro s id pe s' hok
    obtain ⟨hm, _⟩ := activateModel_ok hok
    constructor
    · intro e he hne hact
      rw [hm]
      have hupd : activationUpdate id e
          = { e with state := ModelState.READY, active_path := none } := by
        unfold activationUpdate
        rw [if_neg (by simpa using hne), if_pos hact]
      rw [← hupd]
      exact List.mem_map_of_mem _ he
    · intro e' he' hne'
      rw [hm] at he'
      rcases List.mem_map.mp he' with ⟨e, he, rfl⟩
      by_cases h1 : (e.model_id == id) = true
      · exfalso
        apply hne'
        unfold activationUpdate
        rw [if_pos h1]
        simpa using h1
      · by_cases h2 : e.state = ModelState.ACTIVE
        · unfold activationUpdate
          rw [if_neg h1, if_pos h2]
          simp
        · unfold activationUpdate
          rw [if_neg h1, if_neg h2]
          exact h2

/-- Demo registry used for concrete evaluation: one ACTIVE entry `a`
and one READY entry `b`. -/
def demoRegistry : RegState :=
  { models :=
      [ { model_id := "a", state := ModelState.ACTIVE,
          local_path := some "models/a/a.bin", active_path := some "models/a/a.bin" },
        { model_id := "b", state := ModelState.READY,
          local_path := some "models/b/b.bin", active_path := none } ],
    tasks := [] }

/-- Result of activating `b` inside `demoRegistry`. -/
def demoActivated : RegState :=
  { models :=
      [ { model_id := "a", state := ModelState.READY,
          local_path := some "models/a/a.bin", active_path := none },
        { model_id := "b", state := ModelState.ACTIVE,
          local_path := some "models/b/b.bin", active_path := some "models/b/b.bin" } ],
    tasks := [] }

theorem single_active_model_invariant_witness :
    countActive (runOps
      [ RegOp.startDownload "a" "o/r" "a.bin" none [],
        RegOp.finalizeOk "a" "0abc" (some "models/a/a.bin"),
        RegOp.activate "a" (fun _ => true) ]) ≤ 1 ∧
    ((∀ e ∈ demoRegistry.models, e.model_id ≠ "b" → e.state = ModelState.ACTIVE →
        { e with state := ModelState.READY, active_path := none } ∈ demoActivated.models) ∧
      (∀ e' ∈ demoActivated.models, e'.model_id ≠ "b" → e'.state ≠ ModelState.ACTIVE)) := by
  have hact : activateModel demoRegistry "b" (fun _ => true) = Except.ok demoActivated := by
    rfl
  exact ⟨single_active_model_invariant.1 _,
         single_active_model_invariant.2 demoRegistry "b" (fun _ => true) demoActivated hact⟩

/-- C5 (amended): `activate_model` never changes any entry's checksum, but a
subsequent successful `start_download` for the same `model_id` overwrites the
entry's checksum with the caller-supplied value (possibly null). -/
theorem checksum_immutable_except_redownload :
    (∀ (s : RegState) (id : String) (pe : String → Bool) (s' : RegState),
      activateModel s id pe = Except.ok s' →
      ∀ e' ∈ s'.models, ∃ e ∈ s.models, e.model_id = e'.model_id ∧ e'.checksum = e.checksum) ∧
    (∀ (s : RegState) (id r f : String) (c : Option String) (t : List String) (s' : RegState),
      startDownload s id r f c t = Except.ok s' →
      ∀ e' ∈ s'.models, e'.model_id = id → e'.checksum = c) := by
  constructor
  · intro s id pe s' hok e' he'
    obtain ⟨hm, _⟩ := activateModel_ok hok
    rw [hm] at he'
    rcases List.mem_map.mp he' with ⟨e, he, rfl⟩
    refine ⟨e, he, ?_, ?_⟩ <;>
      · unfold activationUpdate
        by_cases h1 : (e.model_id == id) = true
        · rw [if_pos h1]
        · rw [if_neg h1]
          by_cases h2 : e.state = ModelState.ACTIVE
          · rw [if_pos h2]
          · rw [if_neg h2]
  · intro s id r f c t s' hok e' he' hid
    rw [startDownload_ok hok] at he'
    rcases mem_setModel he' with rfl | ⟨_, hne⟩
    · rfl
    · rw [hid] at hne
      simp at hne

/-- Registry state before the counterexample re-download: the entry `m`
carries the checksum recorded by a completed verified download. -/
def c5Before : RegState :=
  { models :=
      [ { model_id := "m", repo_id := some "o/r", filename := some "w.bin",
          checksum := some "deadbeef", state := ModelState.READY,
          local_path := some "models/m/w.bin", active_path := none } ],
    tasks := [] }

/-- C5 counterexample: a later `start_download` for the same model with no
requested checksum replaces the previously recorded checksum with null. -/
theorem checksum_overwritten_by_redownload :
    (getModel c5Before "m").map (fun e => e.checksum) = some (some "deadbeef") ∧
    ((startDownload c5Before "m" "o/r" "w.bin" none []).toOption.map
        (fun s' => (getModel s' "m").map (fun e => e.checksum))) = some (some none) := by
  constructor
  · rfl
  · rfl

theorem checksum_immutable_except_redownload_witness :
    (∀ e' ∈ demoActivated.models,
      ∃ e ∈ demoRegistry.models, e.model_id = e'.model_id ∧ e'.checksum = e.checksum) ∧
    (∀ e' ∈ (runOps [RegOp.startDownload "m" "o/r" "w.bin" (some "f00d") []]).models,
      e'.model_id = "m" → e'.checksum = some "f00d") := by
  have hact : activateModel demoRegistry "b" (fun _ => true) = Except.ok demoActivated := by
    rfl
  have hsd : startDownload ({} : RegState) "m" "o/r" "w.bin" (some "f00d") []
      = Except.ok (runOps [RegOp.startDownload "m" "o/r" "w.bin" (some "f00d") []]) := by
    rfl
  exact ⟨checksum_immutable_except_redownload.1 demoRegistry "b" (fun _ => true)
          demoActivated hact,
         checksum_immutable_except_redownload.2 {} "m" "o/r" "w.bin" (some "f00d") [] _ hsd⟩

/-! ## Progress records (`models.py`, `_initialise_progress` and
`_update_progress`) -/

/-- One entry of the `_progress` dict.  Byte counts are exact naturals and
`percent` an exact rational, mirroring the arithmetic the source performs. -/
structure ProgressRecord where
  status : String
  downloaded : Nat
  total : Option Nat
  percent : Option ℚ
  error : Option String
  error_code : Option Nat
deriving DecidableEq, Repr

/-- Python's `round` to an integer: round half to even. -/
def roundHalfEven (q : ℚ) : ℤ :=
  if Int.fract q = 1/2 then (if Even ⌊q⌋ then ⌊q⌋ else ⌊q⌋ + 1) else round q

/-- Python's `round(x, 2)`. -/
def round2 (q : ℚ) : ℚ := (roundHalfEven (q * 100) : ℚ) / 100

/-- The record seeded by `_initialise_progress` (`models.py` lines 293-302). -/
def initialProgress : ProgressRecord :=
  { status := "queued", downloaded := 0, total := none,
    percent := some 0, error := none, error_code := none }

/-- The optional keyword arguments of `_update_progress`. -/
structure ProgressUpdate where
  status : Option String := none
  downloaded : Option Nat := none
  total : Option Nat := none
  error : Option String := none
  error_code : Option Nat := none

/-- `ModelRegistry._update_progress` (`models.py` lines 304-340) acting on
the record for one model id (`none` when the id is not yet tracked):
create a default entry when absent, overwrite the fields whose keyword was
given, then recompute `percent` from the resulting `downloaded` and
`total` (`entry.get("total") or 0` maps both null and 0 to 0). -/
def applyUpdate (prev : Option ProgressRecord) (u : ProgressUpdate) : ProgressRecord :=
  let entry := prev.getD
    { status := u.status.getD "unknown", downloaded := u.downloaded.getD 0,
      total := u.total, percent := some 0, error := u.error, error_code := u.error_code }
  { entry with
    status := u.status.getD entry.status
    downloaded := u.downloaded.getD entry.downloaded
    total := match u.total with
      | some t => some t
      | none => entry.total
    error := match u.error with
      | some e => some e
      | none => entry.error
    error_code := match u.error_code with
      | some c => some c
      | none => entry.error_code }

/-- The unconditional percent recomputation at the end of
`_update_progress`. -/
def recomputePercent (entry : ProgressRecord) : ProgressRecord :=
  let totalBytes := entry.total.getD 0
  if totalBytes ≠ 0 then
    { entry with percent := some (round2 ((entry.downloaded : ℚ) / (totalBytes : ℚ) * 100)) }
  else
    { entry with percent := none }

def updateProgress (prev : Option ProgressRecord) (u : ProgressUpdate) : ProgressRecord :=
  recomputePercent (applyUpdate prev u)

/-- C3 (amended): after every `_update_progress` call the invariant holds —
`percent = round(100*downloaded/total, 2)` whenever `total` is a positive
integer and `percent` is null whenever `total` is null or zero — but the
record seeded by `_initialise_progress` carries `percent = 0.0` together
with `total = null` until the first update. -/
theorem progress_percent_invariant (prev : Option ProgressRecord) (u : ProgressUpdate) :
    (∀ t : Nat, (updateProgress prev u).total = some t → 0 < t →
      (updateProgress prev u).percent
        = some (round2 (100 * ((updateProgress prev u).downloaded : ℚ) / (t : ℚ)))) ∧
    (((updateProgress prev u).total = none ∨ (updateProgress prev u).total = some 0) →
      (updateProgress prev u).percent = none) := by
  unfold updateProgress
  generalize applyUpdate prev u = e
  unfold recomputePercent
  constructor
  · intro t ht hpos
    by_cases hz : e.total.getD 0 ≠ 0
    · rw [if_pos hz] at ht ⊢
      simp only at ht ⊢
      have htot : e.total.getD 0 = t := by
        cases hcase : e.total with
        | none => simp [hcase] at ht
        | some t0 =>
          simp [hcase] at ht ⊢
          omega
      rw [htot]
      congr 2
      field_simp
      ring
    · rw [if_neg hz] at ht ⊢
      simp only at ht
      exfalso
      push_neg at hz
      cases hcase : e.total with
      | none => rw [hcase] at ht; cases ht
      | some t0 =>
        rw [hcase] at ht hz
        simp at ht hz
        omega
  · intro hnull
    by_cases hz : e.total.getD 0 ≠ 0
    · rw [if_pos hz] at hnull ⊢
      exfalso
      simp only at hnull
      rcases hnull with h0 | h0 <;> rw [h0] at hz <;> simp at hz
    · rw [if_neg hz]

/-- C3 counterexample: the record seeded by `_initialise_progress` (the state
of the ProgressRecord immediately after `start_download` seeds it when the
remote size is unknown) has `total = null` but `percent = 0.0`, not null. -/
theorem progress_seed_violates_percent_null :
    initialProgress.total = none ∧ initialProgress.percent = some 0 ∧
      (some (0 : ℚ) : Option ℚ) ≠ none := by
  refine ⟨rfl, rfl, ?_⟩
  simp

theorem progress_percent_invariant_witness :
    ((updateProgress (some initialProgress)
        { downloaded := some 8, total := some 16 }).total = some 16 ∧
      (updateProgress (some initialProgress)
        { downloaded := some 8, total := some 16 }).percent
        = some (round2 (100 * ((updateProgress (some initialProgress)
            { downloaded := some 8, total := some 16 }).downloaded : ℚ) / (16 : ℚ)))) ∧
    (updateProgress (some initialProgress) { total := none }).percent = none := by
  refine ⟨⟨rfl, ?_⟩, ?_⟩
  · exact (progress_percent_invariant (some initialProgress)
      { downloaded := some 8, total := some 16 }).1 16 rfl (by norm_num)
  · exact (progress_percent_invariant (some initialProgress) { total := none }).2 (Or.inl rfl)

/-! ## Download worker (`models.py`, `_download_and_finalize`,
`_mark_download_failed` and the effects of `_download_file`) -/

/-- Combined state seen by a download worker: the registry, the `_progress`
dict, the set of files on disk, and the contents last written to
`models.json` by `_save`. -/
structure WorkerState where
  reg : RegState
  progress : List (String × ProgressRecord)
  files : List String
  persisted : List ModelMetadata
deriving DecidableEq, Repr

/-- `self._progress.get(model_id)`. -/
def getProgressMap (ps : List (String × ProgressRecord)) (id : String) :
    Option ProgressRecord :=
  (ps.find? (fun p => p.1 == id)).map (fun p => p.2)

/-- `self._progress[model_id] = record`. -/
def setProgressMap (ps : List (String × ProgressRecord)) (id : String)
    (r : ProgressRecord) : List (String × ProgressRecord) :=
  if ps.any (fun p => p.1 == id) then
    ps.map (fun p => if p.1 == id then (id, r) else p)
  else
    ps ++ [(id, r)]

/-- `_update_progress` on the whole `_progress` dict. -/
def updateProgressMap (ps : List (String × ProgressRecord)) (id : String)
    (u : ProgressUpdate) : List (String × ProgressRecord) :=
  setProgressMap ps id (updateProgress (getProgressMap ps id) u)

/-- `ModelRegistry._mark_download_failed` (`models.py` lines 412-428): reset
the entry to NOT_INSTALLED, clear `active_path`, best-effort delete the file
at the entry's `local_path` (succeeds when `unlinkOk`), clear `local_path`,
store and persist.  When the entry no longer exists, nothing happens. -/
def markDownloadFailed (w : WorkerState) (model_id : String) (unlinkOk : Bool) :
    WorkerState :=
  match getModel w.reg model_id with
  | none => w
  | some metadata =>
    let files := match metadata.local_path with
      | some lp =>
          if w.files.contains lp ∧ unlinkOk then w.files.filter (fun f => f ≠ lp)
          else w.files
      | none => w.files
    let m := { metadata with state := ModelState.NOT_INSTALLED,
                             active_path := none, local_path := none }
    let models := setModel w.reg.models model_id m
    { w with reg := { w.reg with models := models },
             files := files, persisted := models }

/-- Outcome of the blocking `_download_file` call as seen from
`_download_and_finalize`: the computed digest on success, or the exception
that escaped (task cancellation, a typed `ModelRegistryError` carrying its
status code, or an unexpected exception). -/
inductive DLResult where
  | success (digest : String)
  | cancelled
  | failure (msg : String) (code : Nat)
  | unexpected (msg : String)
deriving DecidableEq, Repr

/-- Disk effect of `_download_file`: on success the `.part` temp file is
atomically renamed onto the target; on failure the temp file, when it was
created before the exception, is simply left behind. -/
def downloadFileEffect (files : List String) (temp target : String) :
    DLResult → Bool → List String
  | DLResult.success _, _ => (files.filter (fun f => f ≠ temp)) ++ [target]
  | _, tempCreated =>
      if tempCreated then (if files.contains temp then files else files ++ [temp])
      else files

/-- Pop the worker task (the `finally` clause of `_download_and_finalize`). -/
def popTask (w : WorkerState) (model_id : String) : WorkerState :=
  { w with reg := { w.reg with tasks := w.reg.tasks.filter (fun t => t ≠ model_id) } }

/-- Common failure tail of `_download_and_finalize`: progress is marked with
the status, message and code of the exception handler that ran, then
`_mark_download_failed` and the task pop. -/
def failTail (w : WorkerState) (model_id status msg : String) (code : Nat)
    (unlinkOk : Bool) : WorkerState :=
  let u : ProgressUpdate :=
    { status := some status, error := some msg, error_code := some code }
  let w := { w with progress := updateProgressMap w.progress model_id u }
  popTask (markDownloadFailed w model_id unlinkOk) model_id

/-- Success tail of `_download_and_finalize` (registry update under the lock,
then the completed progress update). -/
def successTail (w : WorkerState) (meta : ModelMetadata) (digest : String) :
    WorkerState :=
  let reg := finalizeSuccess w.reg meta.model_id digest meta.local_path
  let persisted := if (getModel w.reg meta.model_id).isSome then reg.models else w.persisted
  let completed : Option Nat := match getProgressMap w.progress meta.model_id with
    | some p => match p.total with
      | some t => some t
      | none => some p.downloaded
    | none => none
  { w with reg := reg, persisted := persisted,
           progress := updateProgressMap w.progress meta.model_id
             { status := some "completed", downloaded := completed } }

/-- `ModelRegistry._download_and_finalize` (`models.py` lines 342-410) run to
completion on the outcome `res` of `_download_file`.  `meta` is the metadata
object captured when the task was spawned, `tempCreated` records whether the
`.part` file existed when a failure struck, and `unlinkOk` is the oracle for
the best-effort deletions. -/
def downloadAndFinalize (w : WorkerState) (meta : ModelMetadata) (res : DLResult)
    (tempCreated : Bool) (unlinkOk : Bool) : WorkerState :=
  let model_id := meta.model_id
  let target := meta.local_path.getD ""
  let temp := target ++ ".part"
  let w := { w with files := downloadFileEffect w.files temp target res tempCreated }
  match res with
  | DLResult.success digest =>
    match meta.checksum with
    | some c =>
      if digest ≠ c then
        failTail w model_id "error"
          ("Checksum mismatch. Expected " ++ c ++ ", received " ++ digest ++ ".")
          409 unlinkOk
      else popTask (successTail w meta digest) model_id
    | none => popTask (successTail w meta digest) model_id
  | DLResult.cancelled => failTail w model_id "cancelled" "Download cancelled" 499 unlinkOk
  | DLResult.failure msg code => failTail w model_id "error" msg code unlinkOk
  | DLResult.unexpected msg => failTail w model_id "error" msg 500 unlinkOk

/-- The worker state after the disk effect of `_download_file`, before the
exception handling of `_download_and_finalize` runs. -/
def afterTransfer (w : WorkerState) (meta : ModelMetadata) (res : DLResult)
    (tempCreated : Bool) : WorkerState :=
  { w with files := downloadFileEffect w.files (meta.local_path.getD "" ++ ".part")
                      (meta.local_path.getD "") res tempCreated }

/-- Whether `res` takes a failure path for a worker spawned with `meta`
(every non-success outcome, and a success whose digest contradicts the
requested checksum). -/
def isFailureOutcome (meta : ModelMetadata) (res : DLResult) : Bool :=
  match res with
  | DLResult.success digest =>
    match meta.checksum with
    | some c => digest ≠ c
    | none => false
  | _ => true

/-- Progress status written on the failure path. -/
def failStatusOf (res : DLResult) : String :=
  match res with
  | DLResult.cancelled => "cancelled"
  | _ => "error"

/-- Progress error code written on the failure path. -/
def failCodeOf (res : DLResult) : Nat :=
  match res with
  | DLResult.success _ => 409
  | DLResult.cancelled => 499
  | DLResult.failure _ code => code
  | DLResult.unexpected _ => 500

theorem getProgressMap_setProgressMap (ps : List (String × ProgressRecord))
    (id : String) (r : ProgressRecord) :
    getProgressMap (setProgressMap ps id r) id = some r := by
  unfold getProgressMap setProgressMap
  split
  · induction ps with
    | nil => simp at *
    | cons hd tl ih =>
      by_cases hh : (hd.1 == id) = true
      · rw [List.map_cons, if_pos hh]
        rw [List.find?_cons_of_pos _ (by simp)]
        rfl
      · rw [List.map_cons, if_neg hh]
        rw [List.find?_cons_of_neg _ (by simpa using hh)]
        rename_i hany
        rw [List.any_cons] at hany
        have : tl.any (fun p => p.1 == id) = true := by
          cases hb : tl.any (fun p => p.1 == id)
          · rw [hb] at hany
            rw [Bool.not_eq_true] at hh
            rw [hh] at hany
            simp at hany
          · rfl
        exact ih this
  · rw [List.find?_append]
    have h1 : ps.find? (fun p => p.1 == id) = none := by
      rename_i hany
      rw [List.find?_eq_none]
      intro p hp hbeq
      exact hany (List.any_eq_true.mpr ⟨p, hp, hbeq⟩)
    rw [h1]
    simp [List.find?]

theorem find?_setModel (models : List ModelMetadata) (id : String)
    (m : ModelMetadata) (hm : (m.model_id == id) = true) :
    (setModel models id m).find? (fun e => e.model_id == id) = some m := by
  induction models with
  | nil =>
    unfold setModel
    simp [List.find?, hm]
  | cons y t ih =>
    unfold setModel
    by_cases hy : (y.model_id == id) = true
    · rw [if_pos (by rw [List.any_cons, hy]; rfl)]
      rw [List.map_cons, if_pos hy]
      exact List.find?_cons_of_pos _ hm
    · have hyf : (y.model_id == id) = false := by
        cases hb : (y.model_id == id)
        · rfl
        · exact absurd hb hy
      by_cases ht : t.any (fun e => e.model_id == id) = true
      · rw [if_pos (by rw [List.any_cons, hyf, ht]; rfl)]
        rw [List.map_cons, if_neg hy]
        rw [List.find?_cons_of_neg _ (by simpa using hy)]
        have h0 := ih
        unfold setModel at h0
        rw [if_pos ht] at h0
        exact h0
      · have htf : t.any (fun e => e.model_id == id) = false := by
          cases hb : t.any (fun e => e.model_id == id)
          · rfl
          · exact absurd hb ht
        rw [if_neg (by rw [List.any_cons, hyf, htf]; simp)]
        rw [List.cons_append]
        rw [List.find?_cons_of_neg _ (by simpa using hy)]
        have h0 := ih
        unfold setModel at h0
        rw [if_neg (by rw [htf]; simp)] at h0
        exact h0

theorem updateProgress_fields (prev : Option ProgressRecord) (u : ProgressUpdate)
    (s m : String) (c : Nat) (hs : u.status = some s) (he : u.error = some m)
    (hc : u.error_code = some c) :
    (updateProgress prev u).status = s ∧ (updateProgress prev u).error = some m ∧
      (updateProgress prev u).error_code = some c := by
  have happ : (applyUpdate prev u).status = s ∧ (applyUpdate prev u).error = some m ∧
      (applyUpdate prev u).error_code = some c := by
    unfold applyUpdate
    cases prev <;> simp [hs, he, hc]
  obtain ⟨h1, h2, h3⟩ := happ
  unfold updateProgress
  generalize hgen : applyUpdate prev u = e at h1 h2 h3
  unfold recomputePercent
  by_cases hz : e.total.getD 0 ≠ 0
  · rw [if_pos hz]
    exact ⟨h1, h2, h3⟩
  · rw [if_neg hz]
    exact ⟨h1, h2, h3⟩

theorem markDownloadFailed_spec (w : WorkerState) (id : String) (unlinkOk : Bool)
    (m0 : ModelMetadata) (hm0 : getModel w.reg id = some m0) :
    getModel (markDownloadFailed w id unlinkOk).reg id
      = some { m0 with state := ModelState.NOT_INSTALLED,
                       active_path := none, local_path := none } ∧
    (markDownloadFailed w id unlinkOk).persisted
      = (markDownloadFailed w id unlinkOk).reg.models ∧
    (markDownloadFailed w id unlinkOk).progress = w.progress ∧
    (∀ lp, m0.local_path = some lp → unlinkOk = true → lp ∈ w.files →
      lp ∉ (markDownloadFailed w id unlinkOk).files) := by
  unfold markDownloadFailed
  rw [hm0]
  have hid : (m0.model_id == id) = true := by
    simpa using getModel_model_id hm0
  refine ⟨?_, rfl, rfl, ?_⟩
  · show (setModel w.reg.models id _).find? (fun e => e.model_id == id) = _
    exact find?_setModel _ _ _ hid
  · intro lp hlp hok hmem
    simp only [hlp, hok]
    rw [if_pos ⟨by simpa using hmem, trivial⟩]
    intro hcontra
    rcases List.mem_filter.mp hcontra with ⟨_, hne⟩
    simp at hne

theorem failTail_spec (w : WorkerState) (id status msg : String) (code : Nat)
    (unlinkOk : Bool) :
    (∃ p, getProgressMap (failTail w id status msg code unlinkOk).progress id = some p ∧
      p.status = status ∧ p.error_code = some code ∧ p.error.isSome = true) ∧
    (∀ m0, getModel w.reg id = some m0 →
      getModel (failTail w id status msg code unlinkOk).reg id
        = some { m0 with state := ModelState.NOT_INSTALLED,
                         active_path := none, local_path := none } ∧
      (failTail w id status msg code unlinkOk).persisted
        = (failTail w id status msg code unlinkOk).reg.models ∧
      (∀ lp, m0.local_path = some lp → unlinkOk = true → lp ∈ w.files →
        lp ∉ (failTail w id status msg code unlinkOk).files)) := by
  unfold failTail
  set u : ProgressUpdate :=
    { status := some status, error := some msg, error_code := some code } with hu
  set w1 : WorkerState :=
    { w with progress := updateProgressMap w.progress id u } with hw1
  have hprog : ∀ v : WorkerState, v = markDownloadFailed w1 id unlinkOk →
      (popTask v id).progress = w1.progress := by
    intro v hv
    have := (markDownloadFailed_spec w1 id unlinkOk)
    cases hg : getModel w1.reg id with
    | none =>
      subst hv
      unfold markDownloadFailed
      rw [hg]
      rfl
    | some m0 =>
      subst hv
      exact ((markDownloadFailed_spec w1 id unlinkOk) m0 hg).2.2.1
  constructor
  · refine ⟨updateProgress (getProgressMap w.progress id) u, ?_, ?_, ?_, ?_⟩
    · rw [hprog _ rfl]
      exact getProgressMap_setProgressMap _ _ _
    · exact (updateProgress_fields _ _ status msg code rfl rfl rfl).1
    · exact (updateProgress_fields _ _ status msg code rfl rfl rfl).2.2
    · rw [(updateProgress_fields _ _ status msg code rfl rfl rfl).2.1]
      rfl
  · intro m0 hm0
    have hm1 : getModel w1.reg id = some m0 := hm0
    obtain ⟨hget, hpers, _, hfiles⟩ := markDownloadFailed_spec w1 id unlinkOk m0 hm1
    exact ⟨hget, hpers, hfiles⟩

/-- C4 (amended): every failure or cancellation path of
`_download_and_finalize` (authorization, not-found, checksum mismatch,
transport error, cancellation, unexpected exception) marks the progress
record with status in {error, cancelled} and the corresponding error code
and message, resets the still-registered metadata entry to NOT_INSTALLED
with `active_path` and `local_path` cleared, persists the catalogue, and
best-effort deletes the file at the entry's `local_path`; the `.part`
temporary file of an interrupted transfer is not deleted. -/
theorem download_failure_cleanup (w : WorkerState) (meta : ModelMetadata)
    (res : DLResult) (tempCreated unlinkOk : Bool)
    (hfail : isFailureOutcome meta res = true) :
    (∃ p, getProgressMap (downloadAndFinalize w meta res tempCreated unlinkOk).progress
        meta.model_id = some p ∧
      p.status = failStatusOf res ∧ p.error_code = some (failCodeOf res) ∧
      p.error.isSome = true ∧ (p.status = "error" ∨ p.status = "cancelled")) ∧
    (∀ m0, getModel w.reg meta.model_id = some m0 →
      getModel (downloadAndFinalize w meta res tempCreated unlinkOk).reg meta.model_id
        = some { m0 with state := ModelState.NOT_INSTALLED,
                         active_path := none, local_path := none } ∧
      (downloadAndFinalize w meta res tempCreated unlinkOk).persisted
        = (downloadAndFinalize w meta res tempCreated unlinkOk).reg.models ∧
      (∀ lp, m0.local_path = some lp → unlinkOk = true →
        lp ∈ downloadFileEffect w.files (meta.local_path.getD "" ++ ".part")
              (meta.local_path.getD "") res tempCreated →
        lp ∉ (downloadAndFinalize w meta res tempCreated unlinkOk).files)) := by
  obtain ⟨msg0, hred⟩ : ∃ msg0, downloadAndFinalize w meta res tempCreated unlinkOk
      = failTail (afterTransfer w meta res tempCreated)
          meta.model_id (failStatusOf res) msg0 (failCodeOf res) unlinkOk := by
    cases res with
    | success digest =>
      unfold isFailureOutcome at hfail
      cases hc : meta.checksum with
      | none =>
        rw [hc] at hfail
        cases hfail
      | some c =>
        rw [hc] at hfail
        refine ⟨"Checksum mismatch. Expected " ++ c ++ ", received " ++ digest ++ ".", ?_⟩
        unfold downloadAndFinalize
        simp only [hc]
        rw [if_pos (of_decide_eq_true hfail)]
        rfl
    | cancelled => exact ⟨"Download cancelled", rfl⟩
    | failure m c => exact ⟨m, rfl⟩
    | unexpected m => exact ⟨m, rfl⟩
  rw [hred]
  have hspec := failTail_spec (afterTransfer w meta res tempCreated)
    meta.model_id (failStatusOf res) msg0 (failCodeOf res) unlinkOk
  constructor
  · obtain ⟨p, hp, h1, h2, h3⟩ := hspec.1
    refine ⟨p, hp, h1, h2, h3, ?_⟩
    rw [h1]
    cases res <;> simp [failStatusOf]
  · intro m0 hm0
    exact hspec.2 m0 hm0

/-- Metadata of the model whose download is interrupted mid-stream in the
counterexample. -/
def c4Meta : ModelMetadata :=
  { model_id := "m", repo_id := some "o/r", filename := some "w.bin",
    state := ModelState.DOWNLOADING, local_path := some "models/m/w.bin" }

/-- Worker state right before the interrupted transfer fails: the registry
tracks the DOWNLOADING entry and the worker task, progress is seeded. -/
def c4State : WorkerState :=
  { reg := { models := [c4Meta], tasks := ["m"] },
    progress := [("m", initialProgress)],
    files := [],
    persisted := [c4Meta] }

/-- C4 counterexample: a transport failure (502) striking after the `.part`
file was created leaves `models/m/w.bin.part` on disk even though every
best-effort deletion succeeds — `_mark_download_failed` deletes the file at
`local_path` (which does not exist yet), never the `.part` temporary. -/
theorem partial_file_not_deleted :
    "models/m/w.bin.part"
      ∈ (downloadAndFinalize c4State c4Meta
          (DLResult.failure "Download failed: timeout" 502) true true).files := by
  decide

/-- Metadata with a requested checksum, for the mismatch scenario. -/
def c4MetaCk : ModelMetadata :=
  { model_id := "m", repo_id := some "o/r", filename := some "w.bin",
    checksum := some "9999", state := ModelState.DOWNLOADING,
    local_path := some "models/m/w.bin" }

/-- Worker state for the mismatch scenario: the `.part` file exists and is
about to be renamed onto the target by the completed transfer. -/
def c4StateCk : WorkerState :=
  { reg := { models := [c4MetaCk], tasks := ["m"] },
    progress := [("m", initialProgress)],
    files := ["models/m/w.bin.part"],
    persisted := [c4MetaCk] }

theorem download_failure_cleanup_witness :
    isFailureOutcome c4MetaCk (DLResult.success "bad") = true ∧
    ((∃ p, getProgressMap (downloadAndFinalize c4StateCk c4MetaCk
          (DLResult.success "bad") true true).progress c4MetaCk.model_id = some p ∧
        p.status = failStatusOf (DLResult.success "bad") ∧
        p.error_code = some (failCodeOf (DLResult.success "bad")) ∧
        p.error.isSome = true ∧ (p.status = "error" ∨ p.status = "cancelled")) ∧
      (∀ m0, getModel c4StateCk.reg c4MetaCk.model_id = some m0 →
        getModel (downloadAndFinalize c4StateCk c4MetaCk
            (DLResult.success "bad") true true).reg c4MetaCk.model_id
          = some { m0 with state := ModelState.NOT_INSTALLED,
                           active_path := none, local_path := none } ∧
        (downloadAndFinalize c4StateCk c4MetaCk (DLResult.success "bad") true true).persisted
          = (downloadAndFinalize c4StateCk c4MetaCk (DLResult.success "bad") true true).reg.models ∧
        (∀ lp, m0.local_path = some lp → true = true →
          lp ∈ downloadFileEffect c4StateCk.files (c4MetaCk.local_path.getD "" ++ ".part")
                (c4MetaCk.local_path.getD "") (DLResult.success "bad") true →
          lp ∉ (downloadAndFinalize c4StateCk c4MetaCk
                  (DLResult.success "bad") true true).files))) :=
  ⟨by decide,
   download_failure_cleanup c4StateCk c4MetaCk (DLResult.success "bad") true true (by decide)⟩

/-! ## Path sandbox (`JarvisCore.py`, `_is_subpath` and
`_resolve_allowed_path`) -/

/-- A canonical filesystem path, as its list of components. -/
abbrev FsPath := List String

/-- `_is_subpath` (`JarvisCore.py` lines 143-148): `path.relative_to(parent)`
succeeds exactly when `parent` is a component-wise prefix of `path`. -/
def isSubpath (path parent : FsPath) : Bool :=
  parent.isPrefixOf path

/-- A caller-supplied path string: its absoluteness and its components. -/
structure CandPath where
  absolute : Bool
  comps : List String
deriving DecidableEq, Repr

/-- `_resolve_allowed_path` (`JarvisCore.py` lines 151-167).  `res` is the
filesystem's canonicalisation oracle: `res p` models `Path(p).resolve()` on
the absolute component list `p` (it follows symlinks and eliminates dot
segments); joining a root with a relative candidate concatenates the
component lists.  Errors carry the HTTP status code raised. -/
def resolveAllowedPath (res : FsPath → FsPath) (cand : CandPath)
    (roots : List FsPath) : Except Nat FsPath :=
  if roots = [] then Except.error 500
  else if cand.absolute = false then
    match roots.find? (fun root => isSubpath (res (root ++ cand.comps)) root) with
    | some root => Except.ok (res (root ++ cand.comps))
    | none =>
      let resolved := res ((roots.headD []) ++ cand.comps)
      if roots.any (fun root => isSubpath resolved root) then Except.ok resolved
      else Except.error 403
  else
    let resolved := res cand.comps
    if roots.any (fun root => isSubpath resolved root) then Except.ok resolved
    else Except.error 403

theorem headD_mem {roots : List FsPath} (hne : roots ≠ []) :
    roots.headD [] ∈ roots := by
  cases roots with
  | nil => exact absurd rfl hne
  | cons r t => exact List.mem_cons_self r t

/-- C2: every path accepted by the sandbox resolver canonicalises into at
least one allowed root; a path whose canonical form (under every join for a
relative path) lies within no root is rejected with 403; and a relative path
is joined onto each root in order, the first join canonicalising inside its
own root being returned. -/
theorem sandbox_resolver_sound (res : FsPath → FsPath) (cand : CandPath)
    (roots : List FsPath) (hne : roots ≠ []) :
    (∀ p, resolveAllowedPath res cand roots = Except.ok p →
      ∃ root ∈ roots, isSubpath p root = true) ∧
    (cand.absolute = false →
      (∀ root ∈ roots, ∀ root' ∈ roots,
        isSubpath (res (root' ++ cand.comps)) root = false) →
      resolveAllowedPath res cand roots = Except.error 403) ∧
    (cand.absolute = true →
      (∀ root ∈ roots, isSubpath (res cand.comps) root = false) →
      resolveAllowedPath res cand roots = Except.error 403) ∧
    (∀ pre r suf, cand.absolute = false → roots = pre ++ r :: suf →
      (∀ r' ∈ pre, isSubpath (res (r' ++ cand.comps)) r' = false) →
      isSubpath (res (r ++ cand.comps)) r = true →
      resolveAllowedPath res cand roots = Except.ok (res (r ++ cand.comps))) := by
  refine ⟨?_, ?_, ?_, ?_⟩
  · intro p hp
    unfold resolveAllowedPath at hp
    rw [if_neg hne] at hp
    by_cases habs : cand.absolute = false
    · rw [if_pos habs] at hp
      cases hfind : roots.find? (fun root => isSubpath (res (root ++ cand.comps)) root) with
      | some root =>
        rw [hfind] at hp
        cases hp
        exact ⟨root, List.mem_of_find?_eq_some hfind, by simpa using List.find?_some hfind⟩
      | none =>
        rw [hfind] at hp
        simp only at hp
        split at hp
        · cases hp
          rename_i hany
          rcases List.any_eq_true.mp hany with ⟨root, hroot, hsub⟩
          exact ⟨root, hroot, hsub⟩
        · cases hp
    · rw [if_neg habs] at hp
      simp only at hp
      split at hp
      · cases hp
        rename_i hany
        rcases List.any_eq_true.mp hany with ⟨root, hroot, hsub⟩
        exact ⟨root, hroot, hsub⟩
      · cases hp
  · intro habs hout
    unfold resolveAllowedPath
    rw [if_neg hne, if_pos habs]
    have hfind : roots.find? (fun root => isSubpath (res (root ++ cand.comps)) root)
        = none := by
      rw [List.find?_eq_none]
      intro root hroot
      rw [hout root hroot root hroot]
      simp
    rw [hfind]
    simp only
    rw [if_neg ?_]
    intro hany
    rcases List.any_eq_true.mp hany with ⟨root, hroot, hsub⟩
    rw [hout root hroot (roots.headD []) (headD_mem hne)] at hsub
    cases hsub
  · intro habs hout
    unfold resolveAllowedPath
    rw [if_neg hne, if_neg (by simp [habs])]
    simp only
    rw [if_neg ?_]
    intro hany
    rcases List.any_eq_true.mp hany with ⟨root, hroot, hsub⟩
    rw [hout root hroot] at hsub
    cases hsub
  · intro pre r suf habs hsplit hpre hr
    unfold resolveAllowedPath
    rw [if_neg hne, if_pos habs]
    have hstep : ∀ pre0 : List FsPath,
        (∀ r' ∈ pre0, isSubpath (res (r' ++ cand.comps)) r' = false) →
        (pre0 ++ r :: suf).find? (fun root => isSubpath (res (root ++ cand.comps)) root)
          = some r := by
      intro pre0
      induction pre0 with
      | nil => exact fun _ => List.find?_cons_of_pos _ hr
      | cons a t ih =>
        intro hall
        rw [List.cons_append,
            List.find?_cons_of_neg _ (by simp [hall a (List.mem_cons_self a t)])]
        exact ih (fun x hx => hall x (List.mem_cons_of_mem a hx))
    have hfind : roots.find? (fun root => isSubpath (res (root ++ cand.comps)) root)
        = some r := by
      rw [hsplit]
      exact hstep pre hpre
    rw [hfind]

/-- Demo canonicalisation oracle: the identity (no symlinks). -/
def demoRes : FsPath → FsPath := fun p => p

theorem sandbox_resolver_sound_witness :
    (∀ p, resolveAllowedPath demoRes { absolute := false, comps := ["notes.txt"] }
        [["srv", "data"]] = Except.ok p →
      ∃ root ∈ [["srv", "data"]], isSubpath p root = true) ∧
    (false = false →
      (∀ root ∈ [["srv", "data"]], ∀ root' ∈ [["srv", "data"]],
        isSubpath (demoRes (root' ++ ["notes.txt"])) root = false) →
      resolveAllowedPath demoRes { absolute := false, comps := ["notes.txt"] }
        [["srv", "data"]] = Except.error 403) ∧
    (false = true →
      (∀ root ∈ [["srv", "data"]],
        isSubpath (demoRes ["notes.txt"]) root = false) →
      resolveAllowedPath demoRes { absolute := false, comps := ["notes.txt"] }
        [["srv", "data"]] = Except.error 403) ∧
    (∀ pre r suf, false = false → [["srv", "data"]] = pre ++ r :: suf →
      (∀ r' ∈ pre, isSubpath (demoRes (r' ++ ["notes.txt"])) r' = false) →
      isSubpath (demoRes (r ++ ["notes.txt"])) r = true →
      resolveAllowedPath demoRes { absolute := false, comps := ["notes.txt"] }
        [["srv", "data"]] = Except.ok (demoRes (r ++ ["notes.txt"]))) :=
  sandbox_resolver_sound demoRes { absolute := false, comps := ["notes.txt"] }
    [["srv", "data"]] (by simp)

/-! ## JSON values and the action parser (`llm.py`, `_extract_actions` and
`_parse_actions`) -/

/-- A parsed JSON value as returned by `json.loads`.  Object fields are kept
in insertion order; a Python dict has no duplicate keys. -/
inductive JValue where
  | null
  | bool (b : Bool)
  | num (q : ℚ)
  | str (s : List Char)
  | arr (items : List JValue)
  | obj (fields : List (List Char × JValue))
deriving Repr

/-- `dict.get(key)` on a JSON object. -/
def dictGet (fields : List (List Char × JValue)) (key : List Char) : Option JValue :=
  (fields.find? (fun f => f.1 == key)).map (fun f => f.2)

/-- The per-element cleaning step of `LLMManager._parse_actions`
(`llm.py` lines 452-459): keep an object entry whose `type` value is a
string and whose `payload` value — defaulting to the empty object when the
key is absent — is an object, reduced to exactly those two keys; skip
everything else. -/
def cleanAction (entry : JValue) : Option JValue :=
  match entry with
  | JValue.obj fields =>
    match dictGet fields ("type".toList) with
    | some (JValue.str t) =>
      match (dictGet fields ("payload".toList)).getD (JValue.obj []) with
      | JValue.obj p => some (JValue.obj
          [("type".toList, JValue.str t), ("payload".toList, JValue.obj p)])
      | _ => none
    | _ => none
  | _ => none

/-- `LLMManager._parse_actions` (`llm.py` lines 444-460).  `parse` models
`json.loads`, returning `none` on a decode error. -/
def parseActions (parse : List Char → Option JValue) (payload : List Char) :
    Option (List JValue) :=
  match parse payload with
  | none => none
  | some (JValue.arr items) =>
    let cleaned := items.filterMap cleanAction
    if cleaned.isEmpty then none else some cleaned
  | some _ => none

/-- Whitespace stripped by Python's `str.strip()` (ASCII subset). -/
def pyWs (c : Char) : Bool :=
  c = ' ' ∨ c = '\t' ∨ c = '\n' ∨ c = '\r' ∨ c = '\x0b' ∨ c = '\x0c'

/-- Python's `str.strip()`. -/
def pyStrip (s : List Char) : List Char :=
  ((s.dropWhile pyWs).reverse.dropWhile pyWs).reverse

/-- Scan of `str.find`: the first index at or after `i` where `needle` is a
prefix of the remaining text. -/
def findSubAux (needle hay : List Char) (i : Nat) : Option Nat :=
  match hay with
  | [] => if needle.isPrefixOf [] then some i else none
  | _ :: rest => if needle.isPrefixOf hay then some i else findSubAux needle rest (i + 1)

/-- Python's `text.find(needle, start)` (with `none` for -1). -/
def pyFind (needle hay : List Char) (start : Nat) : Option Nat :=
  findSubAux needle (hay.drop start) start

/-- `LLMManager._extract_actions` (`llm.py` lines 427-442). -/
def extractActions (parse : List Char → Option JValue) (text : List Char) :
    List Char × Option (List JValue) :=
  let marker := "```actions".toList
  let endMarker := "```".toList
  match pyFind marker text 0 with
  | none => (pyStrip text, none)
  | some start =>
    let afterMarker := start + marker.length
    match pyFind endMarker text afterMarker with
    | none => (pyStrip text, none)
    | some e =>
      let actionBlock := pyStrip ((text.drop afterMarker).take (e - afterMarker))
      let message := pyStrip (text.take start ++ text.drop (e + endMarker.length))
      (message, parseActions parse actionBlock)

theorem findSubAux_eq_none (needle hay : List Char) (i : Nat)
    (h : ∀ k, needle.isPrefixOf (hay.drop k) = false) :
    findSubAux needle hay i = none := by
  induction hay generalizing i with
  | nil =>
    unfold findSubAux
    rw [if_neg ?_]
    have h0 := h 0
    rw [List.drop_nil] at h0
    simp [h0]
  | cons c rest ih =>
    unfold findSubAux
    rw [if_neg ?_]
    · exact ih (i + 1) (fun k => by simpa using h (k + 1))
    · have h0 := h 0
      simp only [List.drop_zero] at h0
      simp [h0]

theorem findSubAux_eq_some (needle : List Char) (hay : List Char) (i d : Nat)
    (hpref : needle.isPrefixOf (hay.drop d) = true)
    (hbefore : ∀ k < d, needle.isPrefixOf (hay.drop k) = false) :
    findSubAux needle hay i = some (i + d) := by
  induction hay generalizing i d with
  | nil =>
    rw [List.drop_nil] at hpref
    have hne : needle = [] := by
      cases needle with
      | nil => rfl
      | cons a t => simp [List.isPrefixOf] at hpref
    subst hne
    have hd : d = 0 := by
      by_contra hdne
      have h0 := hbefore 0 (Nat.pos_of_ne_zero hdne)
      rw [List.drop_nil] at h0
      simp [List.isPrefixOf] at h0
    subst hd
    unfold findSubAux
    rw [if_pos (by simp [List.isPrefixOf])]
    rw [Nat.add_zero]
  | cons c rest ih =>
    cases d with
    | zero =>
      unfold findSubAux
      rw [if_pos (by simpa using hpref)]
      rw [Nat.add_zero]
    | succ d =>
      unfold findSubAux
      rw [if_neg ?_]
      · have hres := ih (i + 1) d (by simpa using hpref)
          (fun k hk => by simpa using hbefore (k + 1) (Nat.succ_lt_succ hk))
        rw [hres]
        congr 1
        omega
      · have h0 := hbefore 0 (Nat.succ_pos d)
        simp only [List.drop_zero] at h0
        simp [h0]

theorem findSubAux_none_no_occ (needle hay : List Char) (i : Nat)
    (hne : needle ≠ []) (h : findSubAux needle hay i = none) :
    ∀ k, needle.isPrefixOf (hay.drop k) = false := by
  induction hay generalizing i with
  | nil =>
    intro k
    rw [List.drop_nil]
    cases needle with
    | nil => exact absurd rfl hne
    | cons a t => rfl
  | cons c rest ih =>
    intro k
    unfold findSubAux at h
    split at h
    · cases h
    · rename_i hpref
      cases k with
      | zero =>
        simp only [List.drop_zero]
        cases hb : needle.isPrefixOf (c :: rest)
        · rfl
        · exact absurd hb hpref
      | succ k =>
        have := ih (i + 1) h k
        simpa using this

/-- C6 (amended): when the `` ```actions `` marker is absent, or present with
no closing `` ``` `` after it, `_extract_actions` returns the stripped text
and null actions; when both fences are present it returns the trimmed
concatenation of the text before the opening fence and after the closing
fence, together with `_parse_actions` of the fenced block — which yields the
cleaned elements (objects whose `type` is a string and whose `payload`,
defaulting to the empty object when absent, is an object, reduced to exactly
those two keys), or null when the JSON fails to parse, is not an array, or
the cleaned list is empty. -/
theorem extract_actions_spec (parse : List Char → Option JValue) (text : List Char) :
    ((∀ i, ("```actions".toList).isPrefixOf (text.drop i) = false) →
      extractActions parse text = (pyStrip text, none)) ∧
    (∀ start, ("```actions".toList).isPrefixOf (text.drop start) = true →
      (∀ k < start, ("```actions".toList).isPrefixOf (text.drop k) = false) →
      (∀ i, start + 10 ≤ i → ("```".toList).isPrefixOf (text.drop i) = false) →
      extractActions parse text = (pyStrip text, none)) ∧
    (∀ start e, ("```actions".toList).isPrefixOf (text.drop start) = true →
      (∀ k < start, ("```actions".toList).isPrefixOf (text.drop k) = false) →
      start + 10 ≤ e →
      ("```".toList).isPrefixOf (text.drop e) = true →
      (∀ k < e, start + 10 ≤ k → ("```".toList).isPrefixOf (text.drop k) = false) →
      extractActions parse text
        = (pyStrip (text.take start ++ text.drop (e + 3)),
           parseActions parse (pyStrip ((text.drop (start + 10)).take (e - (start + 10)))))) ∧
    (∀ block, parse block = none → parseActions parse block = none) ∧
    (∀ block items, parse block = some (JValue.arr items) →
      parseActions parse block
        = if (items.filterMap cleanAction).isEmpty then none
          else some (items.filterMap cleanAction)) := by
  have hml : ("```actions".toList).length = 10 := rfl
  refine ⟨?_, ?_, ?_, ?_, ?_⟩
  · intro h
    have hfind : pyFind ("```actions".toList) text 0 = none := by
      unfold pyFind
      rw [List.drop_zero]
      exact findSubAux_eq_none _ _ _ h
    unfold extractActions
    dsimp only
    rw [hfind]
  · intro start hpref hbefore hnoend
    have hfind : pyFind ("```actions".toList) text 0 = some start := by
      unfold pyFind
      rw [List.drop_zero]
      simpa using findSubAux_eq_some _ text 0 start hpref hbefore
    have hend : pyFind ("```".toList) text (start + 10) = none := by
      unfold pyFind
      apply findSubAux_eq_none
      intro k
      rw [List.drop_drop]
      exact hnoend _ (by omega)
    unfold extractActions
    dsimp only
    rw [hfind, hml]
    dsimp only
    rw [hend]
  · intro start e hpref hbefore hle hendpref hendfirst
    have hfind : pyFind ("```actions".toList) text 0 = some start := by
      unfold pyFind
      rw [List.drop_zero]
      simpa using findSubAux_eq_some _ text 0 start hpref hbefore
    have hend : pyFind ("```".toList) text (start + 10) = some e := by
      unfold pyFind
      have hstep := findSubAux_eq_some ("```".toList) (text.drop (start + 10))
        (start + 10) (e - (start + 10))
        (by rw [List.drop_drop,
                show start + 10 + (e - (start + 10)) = e from by omega]
            exact hendpref)
        (by intro k hk
            rw [List.drop_drop]
            exact hendfirst _ (by omega) (by omega))
      rw [hstep]
      congr 1
      omega
    unfold extractActions
    dsimp only
    rw [hfind, hml]
    dsimp only
    rw [hend]
    dsimp only
    have hml3 : ("```".toList).length = 3 := rfl
    rw [hml3]
  · intro block hnone
    unfold parseActions
    rw [hnone]
  · intro block items harr
    unfold parseActions
    rw [harr]

/-- The claim's literal reading of the action list: "the list of elements of
the parsed JSON array that are objects with a string type and an object
payload (malformed elements skipped)" — elements kept unmodified, an element
without a `payload` key skipped. -/
def parseActionsClaim (parse : List Char → Option JValue) (payload : List Char) :
    Option (List JValue) :=
  match parse payload with
  | some (JValue.arr items) =>
    let kept := items.filter (fun e =>
      match e with
      | JValue.obj fields =>
        match dictGet fields ("type".toList), dictGet fields ("payload".toList) with
        | some (JValue.str _), some (JValue.obj _) => true
        | _, _ => false
      | _ => false)
    if kept.isEmpty then none else some kept
  | _ => none

/-- The opening-brace character, kept out of string literals. -/
def lbrace : Char := Char.ofNat 123

/-- The closing-brace character, kept out of string literals. -/
def rbrace : Char := Char.ofNat 125

/-- The fourteen characters of a one-element JSON array whose object has a
`type` key and no `payload` key. -/
def c6Block : List Char :=
  "[".toList ++ [lbrace] ++ "\"type\":\"x\"".toList ++ [rbrace] ++ "]".toList

/-- Stub for `json.loads`, pinned to the single input the counterexample
needs: on `c6Block` the Python decoder returns a one-element array holding
an object with the single key `type`. -/
def demoParse : List Char → Option JValue := fun s =>
  if s = c6Block then
    some (JValue.arr [JValue.obj [("type".toList, JValue.str ("x".toList))]])
  else none

/-- Model output consisting only of a fenced actions block around
`c6Block`. -/
def c6Text : List Char := "```actions".toList ++ c6Block ++ "```".toList

/-- C6 counterexample: on a fenced array whose single element lacks a
`payload` key, `_extract_actions` keeps the element (with an empty-object
payload), while the claim's wording skips it and so predicts null actions. -/
theorem action_parser_claim_counterexample :
    (extractActions demoParse c6Text).2
      = some [JValue.obj [("type".toList, JValue.str ("x".toList)),
                          ("payload".toList, JValue.obj [])]] ∧
    parseActionsClaim demoParse (pyStrip c6Block) = none ∧
    (extractActions demoParse c6Text).2 ≠ parseActionsClaim demoParse (pyStrip c6Block) := by
  refine ⟨rfl, rfl, ?_⟩
  intro hcontra
  have h1 : (extractActions demoParse c6Text).2
      = some [JValue.obj [("type".toList, JValue.str ("x".toList)),
                          ("payload".toList, JValue.obj [])]] := rfl
  have h2 : parseActionsClaim demoParse (pyStrip c6Block) = none := rfl
  rw [h1, h2] at hcontra
  cases hcontra

theorem extract_actions_spec_witness :
    extractActions demoParse ("hello".toList) = (pyStrip ("hello".toList), none) ∧
    extractActions demoParse ("```actions[".toList)
      = (pyStrip ("```actions[".toList), none) ∧
    extractActions demoParse c6Text
      = (pyStrip (c6Text.take 0 ++ c6Text.drop (24 + 3)),
         parseActions demoParse (pyStrip ((c6Text.drop (0 + 10)).take (24 - (0 + 10))))) ∧
    parseActions demoParse ("oops".toList) = none ∧
    parseActions demoParse c6Block
      = (if (([JValue.obj [("type".toList, JValue.str ("x".toList))]]).filterMap
            cleanAction).isEmpty
         then none
         else some (([JValue.obj [("type".toList, JValue.str ("x".toList))]]).filterMap
            cleanAction)) := by
  refine ⟨?_, ?_, ?_, ?_, ?_⟩
  · apply (extract_actions_spec demoParse ("hello".toList)).1
    intro i
    exact findSubAux_none_no_occ ("```actions".toList) ("hello".toList) 0
      (by simp) rfl i
  · apply (extract_actions_spec demoParse ("```actions[".toList)).2.1 0 rfl
      (fun k hk => absurd hk (Nat.not_lt_zero k))
    intro i hi
    have hno := findSubAux_none_no_occ ("```".toList)
      (("```actions[".toList).drop 10) 10 (by simp) rfl (i - 10)
    rw [List.drop_drop, show 10 + (i - 10) = i from by omega] at hno
    exact hno
  · exact (extract_actions_spec demoParse c6Text).2.2.1 0 24 (by decide)
      (fun k hk => absurd hk (Nat.not_lt_zero k)) (by omega) (by decide) (by decide)
  · exact (extract_actions_spec demoParse ("oops".toList)).2.2.2.1 ("oops".toList) rfl
  · exact (extract_actions_spec demoParse c6Block).2.2.2.2 c6Block
      [JValue.obj [("type".toList, JValue.str ("x".toList))]] rfl

/-- C10: every element of the cleaned action list is an object with exactly
the two keys `type` and `payload` (extra keys of the input element are
dropped), and an input element with a string `type` and no `payload` key is
kept with an empty-object payload rather than skipped. -/
theorem cleaned_action_shape :
    (∀ (items : List JValue), ∀ e ∈ items.filterMap cleanAction,
      ∃ t p, e = JValue.obj
        [("type".toList, JValue.str t), ("payload".toList, JValue.obj p)]) ∧
    (∀ (fields : List (List Char × JValue)) (t : List Char),
      dictGet fields ("type".toList) = some (JValue.str t) →
      dictGet fields ("payload".toList) = none →
      cleanAction (JValue.obj fields)
        = some (JValue.obj
            [("type".toList, JValue.str t), ("payload".toList, JValue.obj [])])) := by
  constructor
  · intro items e he
    rcases List.mem_filterMap.mp he with ⟨a, _, hc⟩
    unfold cleanAction at hc
    split at hc
    · split at hc
      · split at hc
        · rename_i fields hty p hpl
          cases hc
          exact ⟨_, _, rfl⟩
        · cases hc
      · cases hc
    · cases hc
  · intro fields t hty hpl
    unfold cleanAction
    dsimp only
    rw [hty, hpl]
    rfl

/-- An object carrying `type`, a `payload`, and an extra key, used to
evaluate the cleaning step concretely. -/
def c10Extra : JValue :=
  JValue.obj [("type".toList, JValue.str ("open".toList)),
              ("payload".toList, JValue.obj [("path".toList, JValue.str (".".toList))]),
              ("extra".toList, JValue.num 7)]

theorem cleaned_action_shape_witness :
    (∀ e ∈ ([c10Extra, JValue.null].filterMap cleanAction),
      ∃ t p, e = JValue.obj
        [("type".toList, JValue.str t), ("payload".toList, JValue.obj p)]) ∧
    cleanAction (JValue.obj [("type".toList, JValue.str ("x".toList))])
      = some (JValue.obj
          [("type".toList, JValue.str ("x".toList)), ("payload".toList, JValue.obj [])]) :=
  ⟨cleaned_action_shape.1 [c10Extra, JValue.null],
   cleaned_action_shape.2 [("type".toList, JValue.str ("x".toList))] ("x".toList) rfl rfl⟩

/-! ## Prompt builder (`llm.py`, `_build_prompt`) -/

/-- One history entry as the dict the HTTP layer passes in; `_build_prompt`
reads both keys with `dict.get` defaults. -/
structure HistEntry where
  role : Option (List Char) := none
  content : Option (List Char) := none

/-- Python's `str.capitalize()`: first character uppercased, the rest
lowercased. -/
def pyCapitalize (s : List Char) : List Char :=
  match s with
  | [] => []
  | c :: t => c.toUpper :: t.map Char.toLower

/-- The history line appended for one entry, or `none` when its stripped
content is empty (`llm.py` lines 418-422). -/
def histLine (e : HistEntry) : Option (List Char) :=
  let role := pyCapitalize (pyStrip (e.role.getD ("user".toList)))
  let content := pyStrip (e.content.getD [])
  if content = [] then none else some (role ++ ": ".toList ++ content)

/-- `"\n".join(segments)`. -/
def joinNL : List (List Char) → List Char
  | [] => []
  | [s] => s
  | s :: rest => s ++ '\n' :: joinNL rest

/-- `LLMManager._build_prompt` (`llm.py` lines 409-425), building the
segment list imperatively as the source does and joining on newlines. -/
def buildPrompt (prompt : List Char) (system_prompt : Option (List Char))
    (history : List HistEntry) : List Char :=
  let segments : List (List Char) := []
  let segments := match system_prompt with
    | some sp => if sp = [] then segments else segments ++ ["System: ".toList ++ pyStrip sp]
    | none => segments
  let segments := history.foldl (fun acc e =>
    match histLine e with
    | some line => acc ++ [line]
    | none => acc) segments
  let segments := segments ++ ["User: ".toList ++ pyStrip prompt]
  let segments := segments ++ ["Assistant:".toList]
  joinNL segments

/-- The last line of a string: everything after the final newline. -/
def lastLine (s : List Char) : List Char :=
  (s.reverse.takeWhile (fun c => c ≠ '\n')).reverse

theorem foldl_histLine (history : List HistEntry) (init : List (List Char)) :
    history.foldl (fun acc e =>
      match histLine e with
      | some line => acc ++ [line]
      | none => acc) init = init ++ history.filterMap histLine := by
  induction history generalizing init with
  | nil => simp
  | cons e rest ih =>
    rw [List.foldl_cons, List.filterMap_cons]
    cases hl : histLine e with
    | none => simpa using ih init
    | some line =>
      rw [ih (init ++ [line])]
      simp

theorem joinNL_append_single (l : List (List Char)) (x : List Char) (hne : l ≠ []) :
    joinNL (l ++ [x]) = joinNL l ++ '\n' :: x := by
  induction l with
  | nil => exact absurd rfl hne
  | cons s rest ih =>
    cases rest with
    | nil => rfl
    | cons b t =>
      rw [List.cons_append]
      show s ++ '\n' :: joinNL ((b :: t) ++ [x]) = (s ++ '\n' :: joinNL (b :: t)) ++ '\n' :: x
      rw [ih (by simp)]
      simp

theorem takeWhile_append_stop (p : Char → Bool) (as : List Char) (b : Char)
    (bs : List Char) (hall : ∀ a ∈ as, p a = true) (hb : p b = false) :
    (as ++ b :: bs).takeWhile p = as := by
  induction as with
  | nil => simp [List.takeWhile, hb]
  | cons a t ih =>
    rw [List.cons_append]
    rw [List.takeWhile_cons_of_pos (hall a (List.mem_cons_self a t))]
    rw [ih (fun x hx => hall x (List.mem_cons_of_mem a hx))]

theorem lastLine_append_newline (xs ys : List Char) (h : ∀ c ∈ ys, c ≠ '\n') :
    lastLine (xs ++ '\n' :: ys) = ys := by
  unfold lastLine
  rw [List.reverse_append, List.reverse_cons]
  rw [List.append_assoc, List.singleton_append]
  rw [takeWhile_append_stop _ ys.reverse '\n' _
    (fun a ha => by simpa using h a (List.mem_reverse.mp ha)) (by simp)]
  exact List.reverse_reverse ys

/-- C7: the prompt builder produces exactly the newline-join of the optional
`System:` line, the kept history lines, the `User:` line and the final
`Assistant:` segment; and `Assistant:` is always the last line.  The
embedding is a pure function of its arguments, so determinism (equal inputs
give an identical string) is immediate. -/
theorem build_prompt_spec (prompt : List Char) (system_prompt : Option (List Char))
    (history : List HistEntry) :
    buildPrompt prompt system_prompt history
      = joinNL ((match system_prompt with
          | some sp => if sp = [] then [] else ["System: ".toList ++ pyStrip sp]
          | none => []) ++ history.filterMap histLine
          ++ ["User: ".toList ++ pyStrip prompt] ++ ["Assistant:".toList]) ∧
    lastLine (buildPrompt prompt system_prompt history) = "Assistant:".toList := by
  have hform : buildPrompt prompt system_prompt history
      = joinNL ((match system_prompt with
          | some sp => if sp = [] then [] else ["System: ".toList ++ pyStrip sp]
          | none => []) ++ history.filterMap histLine
          ++ ["User: ".toList ++ pyStrip prompt] ++ ["Assistant:".toList]) := by
    unfold buildPrompt
    dsimp only
    rw [foldl_histLine]
    cases system_prompt with
    | none => simp
    | some sp =>
      by_cases hsp : sp = []
      · simp [hsp]
      · simp [hsp]
  refine ⟨hform, ?_⟩
  rw [hform]
  clear hform
  generalize hg : ((match system_prompt with
      | some sp => if sp = [] then [] else ["System: ".toList ++ pyStrip sp]
      | none => []) ++ history.filterMap histLine
      ++ ["User: ".toList ++ pyStrip prompt]) = pre
  have hne : pre ≠ [] := by
    rw [← hg]
    simp
  rw [joinNL_append_single pre _ hne]
  exact lastLine_append_newline _ _ (by decide)

/-! ## Streaming generation (`llm.py`, `_streaming_response`) -/

/-- One event yielded to the SSE consumer. -/
inductive GenEvent where
  | chunk (delta : List Char)
  | result (message : List Char) (actions : Option (List JValue))

/-- Recognises the terminal event. -/
def isResultEvent : GenEvent → Bool
  | GenEvent.result _ _ => true
  | GenEvent.chunk _ => false

/-- `LLMManager._streaming_response` (`llm.py` lines 292-314) with the
backend's chunk stream abstracted as the list of strings it produces, in
production order: each chunk is both buffered and yielded, and after the
stream ends a single result event is computed from the joined buffer by
`_extract_actions`. -/
def streamingResponse (parse : List Char → Option JValue)
    (chunks : List (List Char)) : List GenEvent :=
  chunks.map GenEvent.chunk
    ++ [GenEvent.result (extractActions parse chunks.flatten).1
                        (extractActions parse chunks.flatten).2]

/-- C8: a streaming generation yields the backend chunks in production
order followed by exactly one terminal result event, which is last and
carries the action-parser output on the concatenation of all deltas. -/
theorem streaming_event_order (parse : List Char → Option JValue)
    (chunks : List (List Char)) :
    (streamingResponse parse chunks).dropLast = chunks.map GenEvent.chunk ∧
    (streamingResponse parse chunks).getLast?
      = some (GenEvent.result (extractActions parse chunks.flatten).1
                              (extractActions parse chunks.flatten).2) ∧
    (streamingResponse parse chunks).countP isResultEvent = 1 ∧
    (streamingResponse parse chunks).length = chunks.length + 1 := by
  refine ⟨?_, ?_, ?_, ?_⟩
  · unfold streamingResponse
    exact List.dropLast_concat
  · unfold streamingResponse
    exact List.getLast?_concat _
  · unfold streamingResponse
    rw [List.countP_append, List.countP_map]
    have h1 : chunks.countP (isResultEvent ∘ GenEvent.chunk) = 0 := by
      rw [List.countP_eq_zero]
      intro c _
      simp [isResultEvent]
    rw [h1]
    rfl
  · unfold streamingResponse
    simp

/-! ## Output truncation in `/actions/run` (`JarvisCore.py`, `action_run`) -/

/-- Decode a byte sequence as UTF-8 with `errors="replace"`: well-formed
sequences become their code point, a malformed or truncated sequence
becomes U+FFFD and decoding resumes after the valid prefix consumed. -/
def decodeUtf8 (bytes : List Nat) : List Nat :=
  match bytes with
  | [] => []
  | b :: rest =>
    if b < 0x80 then b :: decodeUtf8 rest
    else if 0xC2 ≤ b ∧ b ≤ 0xDF then
      match rest with
      | [] => [0xFFFD]
      | b2 :: rest2 =>
        if 0x80 ≤ b2 ∧ b2 ≤ 0xBF then
          ((b - 0xC0) * 64 + (b2 - 0x80)) :: decodeUtf8 rest2
        else 0xFFFD :: decodeUtf8 (b2 :: rest2)
    else if 0xE0 ≤ b ∧ b ≤ 0xEF then
      match rest with
      | [] => [0xFFFD]
      | b2 :: rest2 =>
        if (0x80 ≤ b2 ∧ b2 ≤ 0xBF) ∧ (b = 0xE0 → 0xA0 ≤ b2) ∧ (b = 0xED → b2 ≤ 0x9F) then
          match rest2 with
          | [] => [0xFFFD]
          | b3 :: rest3 =>
            if 0x80 ≤ b3 ∧ b3 ≤ 0xBF then
              ((b - 0xE0) * 4096 + (b2 - 0x80) * 64 + (b3 - 0x80)) :: decodeUtf8 rest3
            else 0xFFFD :: decodeUtf8 (b3 :: rest3)
        else 0xFFFD :: decodeUtf8 (b2 :: rest2)
    else if 0xF0 ≤ b ∧ b ≤ 0xF4 then
      match rest with
      | [] => [0xFFFD]
      | b2 :: rest2 =>
        if (0x80 ≤ b2 ∧ b2 ≤ 0xBF) ∧ (b = 0xF0 → 0x90 ≤ b2) ∧ (b = 0xF4 → b2 ≤ 0x8F) then
          match rest2 with
          | [] => [0xFFFD]
          | b3 :: rest3 =>
            if 0x80 ≤ b3 ∧ b3 ≤ 0xBF then
              match rest3 with
              | [] => [0xFFFD]
              | b4 :: rest4 =>
                if 0x80 ≤ b4 ∧ b4 ≤ 0xBF then
                  ((b - 0xF0) * 262144 + (b2 - 0x80) * 4096
                    + (b3 - 0x80) * 64 + (b4 - 0x80)) :: decodeUtf8 rest4
                else 0xFFFD :: decodeUtf8 (b4 :: rest4)
            else 0xFFFD :: decodeUtf8 (b3 :: rest3)
        else 0xFFFD :: decodeUtf8 (b2 :: rest2)
    else 0xFFFD :: decodeUtf8 rest
termination_by bytes.length
decreasing_by all_goals simp_arith [*]

/-- Number of bytes of the UTF-8 encoding of one code point. -/
def utf8Len (cp : Nat) : Nat :=
  if cp < 0x80 then 1 else if cp < 0x800 then 2 else if cp < 0x10000 then 3 else 4

/-- Number of bytes of the UTF-8 encoding of a decoded text. -/
def utf8ByteLen (cps : List Nat) : Nat := (cps.map utf8Len).sum

/-- The truncation bound `max_output` of `action_run`
(`JarvisCore.py` line 578). -/
def MAX_OUTPUT : Nat := 65536

/-- `stdout.decode("utf-8", errors="replace")[:max_output]` in `action_run`
(`JarvisCore.py` lines 578-580): decode first, then slice to 65536
characters (code points). -/
def actionRunTruncate (raw : List Nat) : List Nat :=
  (decodeUtf8 raw).take MAX_OUTPUT

theorem decodeUtf8_two_byte (b b2 : Nat) (rest : List Nat)
    (h1 : ¬ b < 0x80) (h2 : 0xC2 ≤ b ∧ b ≤ 0xDF) (h3 : 0x80 ≤ b2 ∧ b2 ≤ 0xBF) :
    decodeUtf8 (b :: b2 :: rest) = ((b - 0xC0) * 64 + (b2 - 0x80)) :: decodeUtf8 rest := by
  conv_lhs => rw [decodeUtf8.eq_def]
  dsimp only
  rw [if_neg h1, if_pos h2, if_pos h3]

theorem decodeUtf8_eacute_repeat (n : Nat) :
    decodeUtf8 ((List.replicate n ([0xC3, 0xA9] : List Nat)).flatten)
      = List.replicate n 0xE9 := by
  induction n with
  | zero => simp [decodeUtf8]
  | succ n ih =>
    rw [List.replicate_succ, List.flatten_cons]
    rw [show ([0xC3, 0xA9] : List Nat) ++ (List.replicate n ([0xC3, 0xA9] : List Nat)).flatten
        = 0xC3 :: 0xA9 :: (List.replicate n ([0xC3, 0xA9] : List Nat)).flatten from rfl]
    rw [decodeUtf8_two_byte _ _ _ (by norm_num) (by norm_num) (by norm_num)]
    rw [ih]
    rw [show ((0xC3 : Nat) - 0xC0) * 64 + (0xA9 - 0x80) = 0xE9 from by norm_num]
    rw [List.replicate_succ]

theorem utf8ByteLen_replicate_eacute (n : Nat) :
    utf8ByteLen (List.replicate n 0xE9) = 2 * n := by
  induction n with
  | zero => rfl
  | succ n ih =>
    unfold utf8ByteLen at ih ⊢
    rw [List.replicate_succ, List.map_cons, List.sum_cons, ih]
    norm_num [utf8Len]
    ring

/-- C9 counterexample: 65538 captured bytes (32769 copies of the two-byte
UTF-8 encoding of U+00E9) decode to 32769 characters, the slice `[:65536]`
keeps all of them, and the returned text therefore spans 65538 bytes of the
captured output, exceeding the claimed 65536-byte bound. -/
theorem run_truncation_exceeds_byte_bound :
    utf8ByteLen (actionRunTruncate
        ((List.replicate 32769 ([0xC3, 0xA9] : List Nat)).flatten)) = 65538 ∧
      65536 < 65538 := by
  constructor
  · unfold actionRunTruncate
    rw [decodeUtf8_eacute_repeat 32769]
    rw [List.take_replicate]
    rw [show min MAX_OUTPUT 32769 = 32769 from by norm_num [MAX_OUTPUT]]
    rw [utf8ByteLen_replicate_eacute]
  · norm_num

/-- C9 (amended): for every completed run, the returned stdout and stderr
are each at most 65536 characters (code points) of the decoded output — a
prefix of the UTF-8-with-replacement decoding of the captured bytes — not
at most 65536 bytes. -/
theorem run_truncation_char_bound (raw : List Nat) :
    (actionRunTruncate raw).length ≤ MAX_OUTPUT ∧
      List.IsPrefix (actionRunTruncate raw) (decodeUtf8 raw) := by
  constructor
  · unfold actionRunTruncate
    rw [List.length_take]
    exact min_le_left _ _
  · exact List.take_prefix _ _

end JarvisCore
